import Mathlib

/-!
Verification of the chunked opening-book builder
(`src/scripts/rebuildBookChunked.py`).

The development shallowly embeds the three core components:

* the Shard Aggregator (`process_single_shard`): an in-memory table of
  (position key, move code) occurrence counts, flattened, sorted and
  written as 16-byte records;
* the External Merge Engine (`merge_books`): a k-way merge over shard
  files driven by a priority structure of 6-tuples
  (key, move, count, n, scoreSum, file index);
* the Integrity Verifier (binary search in `main`).

Machine integers are modelled as `Nat` (unsigned fields) and `Int`
(the signed scoreSum and the heap file index, which the source can set
to -1).  Files are modelled as lists: a shard file is the list of its
entries still unread; a raw byte file is a `List Nat` of byte values.
-/

/-- One 16-byte record: position key, move code, and the three
accumulator fields, exactly the fields of the source's
`struct.pack('>QHHHh', ...)` tuple. -/
structure Entry where
  key : Nat
  move : Nat
  count : Nat
  n : Nat
  scoreSum : Int
deriving DecidableEq, Repr

/-- An item of the merge's priority structure: the entry together with
the integer pushed as its last component
(source line 124 pushes `len(readers) - 1`, which can be `-1`). -/
abbrev HeapItem := Entry × Int

/-- Python tuple comparison on
`(key, move, count, n, sum_val, file_index)`: lexicographic on the six
components.  This is the order `heapq` uses on the pushed 6-tuples. -/
def itemLe (a b : HeapItem) : Bool :=
  if a.1.key ≠ b.1.key then a.1.key < b.1.key
  else if a.1.move ≠ b.1.move then a.1.move < b.1.move
  else if a.1.count ≠ b.1.count then a.1.count < b.1.count
  else if a.1.n ≠ b.1.n then a.1.n < b.1.n
  else if a.1.scoreSum ≠ b.1.scoreSum then a.1.scoreSum < b.1.scoreSum
  else a.2 ≤ b.2

/-- Pop the minimum item of the priority structure (`heapq.heappop`).
All items in the structure are pairwise distinct in their last
component (each file index label has at most one pending item), so the
minimum is unique and this models `heapq` exactly. -/
def popMin : List HeapItem → Option (HeapItem × List HeapItem)
  | [] => none
  | x :: rest =>
    match popMin rest with
    | none => some (x, rest)
    | some (m, rest') => if itemLe x m then some (x, rest) else some (m, x :: rest')

/-- Python list indexing as used on `open_files[file_idx]`: a negative
index counts from the end of the list (the pushed index `-1` selects
the last open file). -/
def pyIndex (len : Nat) (idx : Int) : Nat :=
  if idx < 0 then ((len : Int) + idx).toNat else idx.toNat

/-- Source lines 115-124: open every book file, read its first entry
and, when the file is non-empty, push it with last component
`len(readers) - 1` (the number of items already pushed, minus one).
The state is (list of per-file unread suffixes, priority structure). -/
def initState (books : List (List Entry)) : List (List Entry) × List HeapItem :=
  books.foldl
    (fun st book =>
      match book with
      | [] => (st.1 ++ [[]], st.2)
      | e :: rest => (st.1 ++ [rest], st.2 ++ [(e, (st.2.length : Int) - 1)]))
    ([], [])

/-- Source lines 138-142: combine a popped entry into the current
accumulator by saturating addition (counts clamp at 65535, the score
sum clamps to [-32768, 32767]). -/
def combineEntry (a e : Entry) : Entry :=
  { key := a.key
    move := a.move
    count := min (a.count + e.count) 65535
    n := min (a.n + e.n) 65535
    scoreSum := min (max (a.scoreSum + e.scoreSum) (-32768)) 32767 }

/-- Source lines 135-172, the merge loop: pop the minimum item; if its
(key, move) equals the accumulator's, combine, otherwise flush the
accumulator and restart it from the popped entry; then read the next
entry of `open_files[file_idx]` and, if present, push it back with the
same last component.  When the structure is empty the accumulator is
flushed.  `fuel` bounds the number of iterations; the caller passes
one more than the total number of entries, which the loop never
exhausts since every iteration consumes one entry for good. -/
def mergeLoop (fuel : Nat) (files : List (List Entry)) (readers : List HeapItem)
    (acc : Option Entry) (out : List Entry) (written : Nat) : List Entry × Nat :=
  match fuel with
  | 0 => (out, written)
  | fuel + 1 =>
    match popMin readers with
    | none =>
      match acc with
      | none => (out, written)
      | some a => (out ++ [a], written + 1)
    | some ((e, idx), rest) =>
      let next : Option Entry × List Entry × Nat :=
        match acc with
        | some a =>
          if a.key = e.key ∧ a.move = e.move then
            (some (combineEntry a e), out, written)
          else
            (some e, out ++ [a], written + 1)
        | none => (some e, out, written)
      let fi := pyIndex files.length idx
      match files.getD fi [] with
      | [] => mergeLoop fuel files rest next.1 next.2.1 next.2.2
      | e' :: tail =>
          mergeLoop fuel (files.set fi tail) (rest ++ [(e', idx)]) next.1 next.2.1 next.2.2

/-- Source lines 107-179, `merge_books`: the sequence of entries
written to the output file, together with the returned
`entries_written` count. -/
def merge_books (books : List (List Entry)) : List Entry × Nat :=
  let st := initState books
  mergeLoop ((books.map List.length).sum + 1) st.1 st.2 none [] 0

/-- Adjacent-pair check for the sort invariant:
(e1.key, e1.move) ≤ (e2.key, e2.move) lexicographically. -/
def pairLe (a b : Entry) : Prop :=
  a.key < b.key ∨ (a.key = b.key ∧ a.move ≤ b.move)

/-- Strict adjacent-pair order: (e1.key, e1.move) < (e2.key, e2.move)
lexicographically. -/
def pairLt (a b : Entry) : Prop :=
  a.key < b.key ∨ (a.key = b.key ∧ a.move < b.move)

instance : DecidableRel pairLe := fun a b =>
  inferInstanceAs (Decidable (a.key < b.key ∨ (a.key = b.key ∧ a.move ≤ b.move)))
instance : DecidableRel pairLt := fun a b =>
  inferInstanceAs (Decidable (a.key < b.key ∨ (a.key = b.key ∧ a.move < b.move)))

/-- C1: the merge of the two sorted shard files
[(100,0,..), (200,0,..)] and [(1,0,..), (2,0,..)] outputs entries with
keys 1, 100, 2, 200 in that order: the adjacent pair (100, 2) violates
the claimed sort invariant of the FinalStore.  The cause is source
line 124 pushing `len(readers) - 1` instead of the file's index, so a
pop triggers a read from the wrong file. -/
theorem C1_merge_output_unsorted :
    List.Chain' pairLt [Entry.mk 100 0 1 1 0, Entry.mk 200 0 1 1 0] ∧
    List.Chain' pairLt [Entry.mk 1 0 1 1 0, Entry.mk 2 0 1 1 0] ∧
    (merge_books [[Entry.mk 100 0 1 1 0, Entry.mk 200 0 1 1 0],
                  [Entry.mk 1 0 1 1 0, Entry.mk 2 0 1 1 0]]).1
      = [Entry.mk 1 0 1 1 0, Entry.mk 100 0 1 1 0,
         Entry.mk 2 0 1 1 0, Entry.mk 200 0 1 1 0] ∧
    ¬ List.Chain' pairLe
        (merge_books [[Entry.mk 100 0 1 1 0, Entry.mk 200 0 1 1 0],
                      [Entry.mk 1 0 1 1 0, Entry.mk 2 0 1 1 0]]).1 := by
  refine ⟨?_, ?_, by decide, ?_⟩
  · simp +decide [List.chain'_cons, pairLt]
  · simp +decide [List.chain'_cons, pairLt]
  · have h : (merge_books [[Entry.mk 100 0 1 1 0, Entry.mk 200 0 1 1 0],
                  [Entry.mk 1 0 1 1 0, Entry.mk 2 0 1 1 0]]).1
        = [Entry.mk 1 0 1 1 0, Entry.mk 100 0 1 1 0,
           Entry.mk 2 0 1 1 0, Entry.mk 200 0 1 1 0] := by decide
    rw [h]
    simp +decide [List.chain'_cons, pairLe]

/-- C2: with two one-entry shard files, the items pushed at
initialisation carry last components -1 and 0 instead of their file
indices 0 and 1; Python resolves index -1 to the last open file, so
popping the entry that originated from file 0 reads from file 1. -/
theorem C2_heap_item_carries_wrong_index :
    ((initState [[Entry.mk 5 0 1 1 0], [Entry.mk 9 0 1 1 0]]).2.map Prod.snd
       = [-1, 0]) ∧
    pyIndex 2 (-1) = 1 ∧ (1 : Nat) ≠ 0 ∧ ((-1 : Int) ≠ 0 ∧ (0 : Int) ≠ 1) := by
  decide

/-- C3: merging the sorted duplicate-free shard files
[(100,0,..), (300,0,..)] and [(1,0,..), (2,0,..), (100,0,..)] writes
the pair (key 100, move 0) twice, violating the claimed uniqueness
invariant of the FinalStore - another consequence of the off-by-one
file index of source line 124. -/
theorem C3_merge_output_duplicate_pair :
    List.Chain' pairLt [Entry.mk 100 0 1 1 0, Entry.mk 300 0 1 1 0] ∧
    List.Chain' pairLt [Entry.mk 1 0 1 1 0, Entry.mk 2 0 1 1 0, Entry.mk 100 0 1 1 0] ∧
    ((merge_books [[Entry.mk 100 0 1 1 0, Entry.mk 300 0 1 1 0],
                   [Entry.mk 1 0 1 1 0, Entry.mk 2 0 1 1 0, Entry.mk 100 0 1 1 0]]).1.countP
       (fun e => decide (e.key = 100) && decide (e.move = 0)) = 2) := by
  refine ⟨?_, ?_, by decide⟩
  · simp +decide [List.chain'_cons, pairLt]
  · simp +decide [List.chain'_cons, pairLt]

/-- C6: merging exactly two shard files holding the single entries
(k, m, 3, 3, 0) and (k, m, 5, 5, 0), in either order, yields exactly
one output entry, (k, m, 8, 8, 0), for every key k and move m. -/
theorem C6_two_singleton_shards_aggregate (k m : Nat) :
    merge_books [[Entry.mk k m 3 3 0], [Entry.mk k m 5 5 0]]
      = ([Entry.mk k m 8 8 0], 1) ∧
    merge_books [[Entry.mk k m 5 5 0], [Entry.mk k m 3 3 0]]
      = ([Entry.mk k m 8 8 0], 1) := by
  constructor <;>
    simp +decide [merge_books, initState, mergeLoop, popMin, itemLe, combineEntry,
      pyIndex, List.getD]

/-- C10: on an empty list of shard files the merge writes no entries
and returns an entries-written count of 0 (the output file is created
and left empty; no error is raised - the model is a total function). -/
theorem C10_empty_book_list : merge_books [] = ([], 0) := by
  decide

/-- C7: the merge's combining step is saturating addition: each
combined count equals the true sum or clamps at 65535, the combined
score sum equals the true sum or clamps at the signed 16-bit bounds
and always stays inside [-32768, 32767]; and merging the counts 60000
and 10000 for one (k, m) pair through the full merge yields 65535, not
70000 and not a wraparound value. -/
theorem C7_combine_saturates :
    (∀ a e : Entry,
      ((combineEntry a e).count = a.count + e.count ∨
        ((combineEntry a e).count = 65535 ∧ 65535 ≤ a.count + e.count)) ∧
      ((combineEntry a e).n = a.n + e.n ∨
        ((combineEntry a e).n = 65535 ∧ 65535 ≤ a.n + e.n)) ∧
      ((combineEntry a e).scoreSum = a.scoreSum + e.scoreSum ∨
        ((combineEntry a e).scoreSum = -32768 ∧ a.scoreSum + e.scoreSum ≤ -32768) ∨
        ((combineEntry a e).scoreSum = 32767 ∧ 32767 ≤ a.scoreSum + e.scoreSum)) ∧
      -32768 ≤ (combineEntry a e).scoreSum ∧ (combineEntry a e).scoreSum ≤ 32767) ∧
    (∀ k m : Nat,
      merge_books [[Entry.mk k m 60000 60000 0], [Entry.mk k m 10000 10000 0]]
        = ([Entry.mk k m 65535 65535 0], 1)) := by
  constructor
  · intro a e
    simp only [combineEntry]
    refine ⟨?_, ?_, ?_, ?_, ?_⟩ <;> omega
  · intro k m
    norm_num [merge_books, initState, mergeLoop, popMin, itemLe, combineEntry,
      pyIndex, List.getD]

/-!
The fixed 16-byte record encoding.  `struct.pack('>QHHHh', ...)` lays
out, big-endian: 8 bytes of key, 2 of move, 2 of count, 2 of n, and 2
of scoreSum in two's complement; `struct.unpack` inverts it.  Bytes
are modelled as `Nat` values below 256.
-/

/-- Big-endian bytes of a value: `toBytesBE w v` is the `w`-byte
big-endian encoding of `v` (most significant byte first). -/
def toBytesBE : Nat → Nat → List Nat
  | 0, _ => []
  | w + 1, v => toBytesBE w (v / 256) ++ [v % 256]

/-- Big-endian decoding of a byte list back to a value. -/
def fromBytesBE (bs : List Nat) : Nat :=
  bs.foldl (fun acc b => acc * 256 + b) 0

/-- The 16-byte big-endian encoding of an Entry
(`struct.pack('>QHHHh', key, move, count, n, scoreSum)`); the signed
scoreSum is stored as its two's-complement residue mod 2^16. -/
def packEntry (e : Entry) : List Nat :=
  toBytesBE 8 e.key ++ toBytesBE 2 e.move ++ toBytesBE 2 e.count ++
    toBytesBE 2 e.n ++ toBytesBE 2 (e.scoreSum % 65536).toNat

/-- Decoding of a 16-byte record
(`struct.unpack('>QHHHh', entry)`); the last two bytes are read as a
signed two's-complement 16-bit value. -/
def unpackEntry (bs : List Nat) : Entry :=
  let u := fromBytesBE ((bs.drop 14).take 2)
  { key := fromBytesBE (bs.take 8)
    move := fromBytesBE ((bs.drop 8).take 2)
    count := fromBytesBE ((bs.drop 10).take 2)
    n := fromBytesBE ((bs.drop 12).take 2)
    scoreSum := if u < 32768 then (u : Int) else (u : Int) - 65536 }

/-- C8: encoding an Entry whose fields are in range as its fixed
16-byte big-endian record and decoding it back reproduces the entry
exactly. -/
theorem C8_pack_unpack_roundtrip (e : Entry)
    (hk : e.key ≤ 2 ^ 64 - 1) (hm : e.move ≤ 65535) (hc : e.count ≤ 65535)
    (hn : e.n ≤ 65535) (hs1 : -32768 ≤ e.scoreSum) (hs2 : e.scoreSum ≤ 32767) :
    unpackEntry (packEntry e) = e := by
  obtain ⟨k, m, c, n, s⟩ := e
  simp only at hk hm hc hn hs1 hs2
  simp only [packEntry, unpackEntry, toBytesBE, fromBytesBE, List.append_assoc,
    List.cons_append, List.nil_append, List.drop_succ_cons, List.drop_zero,
    List.take_succ_cons, List.take_zero, List.foldl_cons, List.foldl_nil]
  simp only [Entry.mk.injEq]
  refine ⟨by omega, by omega, by omega, by omega, ?_⟩
  split <;> omega

/-- Witness for C8 at the boundary entries
(key 2^64-1, move 0x1041 with promotion bits set, count 65535,
scoreSum -32768) and (key 0, move 0, n 65535, scoreSum 32767). -/
theorem C8_pack_unpack_roundtrip_witness :
    unpackEntry (packEntry (Entry.mk (2 ^ 64 - 1) 4161 65535 0 (-32768)))
        = Entry.mk (2 ^ 64 - 1) 4161 65535 0 (-32768) ∧
      unpackEntry (packEntry (Entry.mk 0 0 0 65535 32767))
        = Entry.mk 0 0 0 65535 32767 :=
  ⟨C8_pack_unpack_roundtrip _ (by norm_num) (by norm_num) (by norm_num)
      (by norm_num) (by norm_num) (by norm_num),
    C8_pack_unpack_roundtrip _ (by norm_num) (by norm_num) (by norm_num)
      (by norm_num) (by norm_num) (by norm_num)⟩

/-!
The Shard Aggregator (`process_game` / `process_single_shard`).

`process_game` walks the first plies of each game and, per move,
produces the pair (position key, packed move code): the key comes from
the external hash collaborator, so the aggregator's input is modelled
as the list of observed (key, move) pairs of the whole game stream.
`position_stats[key][move_int] += 1` builds a nested table; it is
embedded as an insertion-ordered association list keyed by the
(key, move) pair (the nested dict flattened to the list of triples the
source itself flattens it to on lines 91-94).
-/

/-- One `position_stats[key][move_int] += 1` update on the flattened
table of (key, move, cnt) triples: bump the count of the pair if it is
present, otherwise append it with count 1. -/
def addObs : List (Nat × Nat × Nat) → Nat → Nat → List (Nat × Nat × Nat)
  | [], k, m => [(k, m, 1)]
  | (k', m', c) :: rest, k, m =>
    if k' = k ∧ m' = m then (k', m', c + 1) :: rest
    else (k', m', c) :: addObs rest k m

/-- The table after processing every observed (key, move) pair of the
game stream. -/
def buildTable (obs : List (Nat × Nat)) : List (Nat × Nat × Nat) :=
  obs.foldl (fun t p => addObs t p.1 p.2) []

/-- The order `entries.sort()` sorts by: Python lexicographic
comparison of the (key, move_int, cnt) tuples. -/
def tripleLe (a b : Nat × Nat × Nat) : Prop :=
  a.1 < b.1 ∨ (a.1 = b.1 ∧ (a.2.1 < b.2.1 ∨ (a.2.1 = b.2.1 ∧ a.2.2 ≤ b.2.2)))

instance : DecidableRel tripleLe := fun a b =>
  inferInstanceAs (Decidable
    (a.1 < b.1 ∨ (a.1 = b.1 ∧ (a.2.1 < b.2.1 ∨ (a.2.1 = b.2.1 ∧ a.2.2 ≤ b.2.2)))))

instance : IsTotal (Nat × Nat × Nat) tripleLe :=
  ⟨fun a b => by unfold tripleLe; omega⟩

instance : IsTrans (Nat × Nat × Nat) tripleLe :=
  ⟨fun a b c => by unfold tripleLe; omega⟩

/-- Source lines 100-101: one written record
`struct.pack('>QHHHh', key, move_int, min(cnt, 65535), min(cnt, 65535),
min(cnt, 32767))`. -/
def writeShardEntry (t : Nat × Nat × Nat) : Entry :=
  { key := t.1
    move := t.2.1
    count := min t.2.2 65535
    n := min t.2.2 65535
    scoreSum := ((min t.2.2 32767 : Nat) : Int) }

/-- Source lines 91-102: flatten the statistics table, sort the
(key, move_int, cnt) triples ascending, clamp and write each as a
16-byte record.  The result is the entry sequence of the ShardFile. -/
def process_single_shard (obs : List (Nat × Nat)) : List Entry :=
  (List.insertionSort tripleLe (buildTable obs)).map writeShardEntry

/-- The (key, move) pair of a table triple. -/
def kmOf (t : Nat × Nat × Nat) : Nat × Nat := (t.1, t.2.1)

theorem addObs_map_kmOf (t : List (Nat × Nat × Nat)) (k m : Nat) :
    (addObs t k m).map kmOf
      = if (k, m) ∈ t.map kmOf then t.map kmOf else t.map kmOf ++ [(k, m)] := by
  induction t with
  | nil => simp [addObs, kmOf]
  | cons hd tl ih =>
    obtain ⟨k', m', c⟩ := hd
    by_cases h : k' = k ∧ m' = m
    · obtain ⟨rfl, rfl⟩ := h
      simp [addObs, kmOf]
    · have hne : ((k, m) : Nat × Nat) ≠ (k', m') := fun hc =>
        h ⟨(congrArg Prod.fst hc).symm, (congrArg Prod.snd hc).symm⟩
      rw [addObs, if_neg h]
      by_cases hm : (k, m) ∈ tl.map kmOf
      · rw [List.map_cons, ih, if_pos hm, List.map_cons,
          if_pos (List.mem_cons_of_mem _ hm)]
      · rw [List.map_cons, ih, if_neg hm, List.map_cons, if_neg, List.cons_append]
        intro hc
        rcases List.mem_cons.mp hc with h1 | h1
        · exact hne (by simpa [kmOf] using h1)
        · exact hm h1

theorem addObs_nodup {t : List (Nat × Nat × Nat)} (k m : Nat)
    (h : (t.map kmOf).Nodup) : ((addObs t k m).map kmOf).Nodup := by
  rw [addObs_map_kmOf]
  split
  · exact h
  next hm =>
    refine List.Nodup.append h (List.nodup_singleton _) ?_
    intro a ha hb
    rw [List.mem_singleton] at hb
    subst hb
    exact hm ha

theorem buildTable_nodup (obs : List (Nat × Nat)) :
    ((buildTable obs).map kmOf).Nodup := by
  suffices h : ∀ t : List (Nat × Nat × Nat), (t.map kmOf).Nodup →
      ((obs.foldl (fun t p => addObs t p.1 p.2) t).map kmOf).Nodup from
    h [] (by simp)
  induction obs with
  | nil => intro t ht; simpa using ht
  | cons p rest ih =>
    intro t ht
    exact ih _ (addObs_nodup p.1 p.2 ht)

theorem addObs_counts {t : List (Nat × Nat × Nat)} (k m : Nat)
    (h : ∀ x ∈ t, 1 ≤ x.2.2) : ∀ x ∈ addObs t k m, 1 ≤ x.2.2 := by
  induction t with
  | nil => simp [addObs]
  | cons hd tl ih =>
    obtain ⟨k', m', c⟩ := hd
    rw [addObs]
    split
    · intro x hx
      rcases List.mem_cons.mp hx with h1 | h1
      · have := h (k', m', c) (List.mem_cons_self _ _)
        subst h1; simp
      · exact h x (List.mem_cons_of_mem _ h1)
    · intro x hx
      rcases List.mem_cons.mp hx with h1 | h1
      · subst h1; exact h _ (List.mem_cons_self _ _)
      · exact ih (fun y hy => h y (List.mem_cons_of_mem _ hy)) x h1

theorem buildTable_counts (obs : List (Nat × Nat)) :
    ∀ x ∈ buildTable obs, 1 ≤ x.2.2 := by
  suffices h : ∀ t : List (Nat × Nat × Nat), (∀ x ∈ t, 1 ≤ x.2.2) →
      ∀ x ∈ obs.foldl (fun t p => addObs t p.1 p.2) t, 1 ≤ x.2.2 from
    h [] (by simp)
  induction obs with
  | nil => intro t ht; simpa using ht
  | cons p rest ih =>
    intro t ht
    exact ih _ (addObs_counts p.1 p.2 ht)

/-- C9: for every stream of observed (key, move) pairs, the sequence
of entries the Shard Aggregator writes is strictly ascending in
(key, move) - pairwise, hence also between adjacent entries, and hence
with no duplicated (key, move) pair. -/
theorem C9_shard_file_strictly_sorted (obs : List (Nat × Nat)) :
    List.Pairwise pairLt (process_single_shard obs) ∧
    List.Chain' pairLt (process_single_shard obs) := by
  have hsorted : List.Sorted tripleLe (List.insertionSort tripleLe (buildTable obs)) :=
    List.sorted_insertionSort tripleLe _
  have hperm : List.Perm (List.insertionSort tripleLe (buildTable obs)) (buildTable obs) :=
    List.perm_insertionSort tripleLe _
  have hnd : ((List.insertionSort tripleLe (buildTable obs)).map kmOf).Nodup :=
    ((hperm.map kmOf).nodup_iff).mpr (buildTable_nodup obs)
  have hpw_ne : List.Pairwise (fun a b => kmOf a ≠ kmOf b)
      (List.insertionSort tripleLe (buildTable obs)) := List.pairwise_map.mp hnd
  have hpw : List.Pairwise (fun a b => pairLt (writeShardEntry a) (writeShardEntry b))
      (List.insertionSort tripleLe (buildTable obs)) := by
    refine List.Pairwise.imp ?_ (hsorted.and hpw_ne)
    rintro a b ⟨hle, hne⟩
    have hne' : ¬(a.1 = b.1 ∧ a.2.1 = b.2.1) := fun hc => hne (by simp [kmOf, hc.1, hc.2])
    unfold tripleLe at hle
    simp only [pairLt, writeShardEntry]
    omega
  have : List.Pairwise pairLt (process_single_shard obs) := by
    rw [process_single_shard]
    exact List.pairwise_map.mpr hpw
  exact ⟨this, this.chain'⟩

/-- C4: counterexample - from the single observed pair (5, 7) the
Shard Aggregator writes the entry (5, 7, 1, 1, 1): its scoreSum field
is `min(cnt, 65535 or 32767)` of source line 101, here 1, not 0. -/
theorem C4_scoreSum_not_zero :
    process_single_shard [(5, 7)] = [Entry.mk 5 7 1 1 1] ∧
    (Entry.mk 5 7 1 1 1).scoreSum ≠ 0 := by
  decide

/-- C4 (amended): every Entry written to a ShardFile has
scoreSum = min(raw occurrence count, 32767), where the raw count is at
least 1 and the count and n fields are that raw count clamped to
65535; in particular scoreSum is at least 1, never 0. -/
theorem C4_amended_scoreSum_is_clamped_count (obs : List (Nat × Nat)) (e : Entry)
    (he : e ∈ process_single_shard obs) :
    1 ≤ e.scoreSum ∧ ∃ c : Nat, 1 ≤ c ∧ e.count = min c 65535 ∧
      e.n = min c 65535 ∧ e.scoreSum = ((min c 32767 : Nat) : Int) := by
  rw [process_single_shard] at he
  obtain ⟨t, ht, rfl⟩ := List.mem_map.mp he
  have htbl : t ∈ buildTable obs := (List.perm_insertionSort tripleLe _).mem_iff.mp ht
  have hc := buildTable_counts obs t htbl
  refine ⟨?_, t.2.2, hc, rfl, rfl, rfl⟩
  simp only [writeShardEntry]
  omega

/-- Witness for the amended C4 at the stream [(5, 7)] and its single
written entry (5, 7, 1, 1, 1). -/
theorem C4_amended_scoreSum_witness :
    1 ≤ (Entry.mk 5 7 1 1 1).scoreSum ∧ ∃ c : Nat, 1 ≤ c ∧
      (Entry.mk 5 7 1 1 1).count = min c 65535 ∧
      (Entry.mk 5 7 1 1 1).n = min c 65535 ∧
      (Entry.mk 5 7 1 1 1).scoreSum = ((min c 32767 : Nat) : Int) :=
  C4_amended_scoreSum_is_clamped_count [(5, 7)] (Entry.mk 5 7 1 1 1) (by decide)

/-!
The Integrity Verifier (source lines 232-258): the final file's byte
size gives `num_entries = file_size // 16` (floor division, with no
check that the size is a multiple of 16), then an iterative binary
search over entry indices seeks to `mid * 16`, decodes the 8-byte
big-endian key there and compares it with the target key.  The loop
variables `left` and `right` are Python ints; `right` starts at
`num_entries - 1`, which is -1 on an empty file, so they are modelled
as `Int`.  In every reachable call `left` and `right` are the only
quantities `mid` depends on and are non-negative whenever the loop
body runs, so integer division matches Python floor division there.
`fuel` bounds the iteration count; the caller passes
`num_entries + 1`, which the search never exhausts since each
iteration shrinks `right - left`. -/
def bsearchKey (bytes : List Nat) (target : Nat) : Nat → Int → Int → Bool
  | 0, _, _ => false
  | fuel + 1, left, right =>
    if left ≤ right then
      let mid : Int := (left + right) / 2
      let key := fromBytesBE ((bytes.drop (mid.toNat * 16)).take 8)
      if key = target then true
      else if key < target then bsearchKey bytes target fuel (mid + 1) right
      else bsearchKey bytes target fuel left (mid - 1)
    else false

/-- The verification step of `main`: binary-search the output file's
bytes for the reference key, returning found / not found. -/
def verifyBook (bytes : List Nat) (target : Nat) : Bool :=
  let num_entries := bytes.length / 16
  bsearchKey bytes target (num_entries + 1) 0 ((num_entries : Int) - 1)

/-- C5: counterexample - on a 17-byte file (one complete entry with
key 5, plus one trailing byte) the verifier does not fail: it
proceeds with the floored entry count 1 and returns found = true for
target key 5, although 17 is not a multiple of 16.  The source
computes `num_entries = file_size // 16` with no size check, and the
model is a total function with no error outcome. -/
theorem C5_no_corruption_check :
    (packEntry (Entry.mk 5 0 1 1 0) ++ [0]).length % 16 ≠ 0 ∧
    verifyBook (packEntry (Entry.mk 5 0 1 1 0) ++ [0]) 5 = true := by
  decide

theorem bsearchKey_take (bytes : List Nat) (target n : Nat) :
    ∀ (fuel : Nat) (left right : Int), 0 ≤ left → right ≤ (n : Int) - 1 →
      bsearchKey (bytes.take (16 * n)) target fuel left right
        = bsearchKey bytes target fuel left right := by
  intro fuel
  induction fuel with
  | zero => intro left right _ _; rfl
  | succ fuel ih =>
    intro left right hl hr
    by_cases hlr : left ≤ right
    · have hmid1 : left ≤ (left + right) / 2 := by omega
      have hmid2 : (left + right) / 2 ≤ right := by omega
      have hoff : ((left + right) / 2).toNat * 16 + 8 ≤ 16 * n := by omega
      have hread : ((bytes.take (16 * n)).drop (((left + right) / 2).toNat * 16)).take 8
          = (bytes.drop (((left + right) / 2).toNat * 16)).take 8 := by
        rw [List.drop_take, List.take_take, min_eq_left (by omega)]
      simp only [bsearchKey, if_pos hlr, hread]
      split
      · rfl
      split
      · exact ih _ _ (by omega) hr
      · exact ih _ _ hl (by omega)
    · simp only [bsearchKey, if_neg hlr]

/-- C5 (amended): the verifier, given a file whose byte size is not an
exact multiple of 16, reports no corruption error; it computes the
entry count as the floor of size / 16 and proceeds, the trailing
partial record having no effect: the verdict equals the verdict on the
file truncated to its complete 16-byte records. -/
theorem C5_amended_trailing_bytes_ignored (bytes : List Nat) (target : Nat) :
    verifyBook bytes target
      = verifyBook (bytes.take (16 * (bytes.length / 16))) target := by
  have hlen : (bytes.take (16 * (bytes.length / 16))).length
      = 16 * (bytes.length / 16) := by
    rw [List.length_take]
    exact min_eq_left (by omega)
  rw [verifyBook, verifyBook, hlen, Nat.mul_div_cancel_left _ (by norm_num)]
  exact (bsearchKey_take bytes target (bytes.length / 16) _ 0 _ le_rfl le_rfl).symm
